import Mathlib

/-!
Shallow embedding of the Ray Train tutorial notebook
(`src/ch-ray-ml/ray-train.ipynb`) and of the distributed-training
orchestration layer it exercises.

The notebook itself contains `train_func`, `test_func`, `train_loop` and the
driver configuration; those are embedded directly from the source cells.
The framework components the notebook calls into (`ray.train.report`,
`prepare_data_loader`, `prepare_model`, rank assignment, checkpoint
retention) have no implementation in the repository, so they are modelled
from the specification document, as marked on each definition.
-/

namespace RayTrain

/-- One metrics record as built in `train_loop`:
`metrics = {"acc": acc, "epoch": epoch}`.  The accuracy is modelled as a
rational number (the quotient `correct / total` computed by `test_func`). -/
structure MetricsRecord where
  acc : ℚ
  epoch : Nat
deriving DecidableEq

/-- Observable trace of one worker running `train_loop`:
which epochs were passed to `sampler.set_epoch`, which metrics records were
handed to `ray.train.report`, and which were printed on the driver. -/
@[ext]
structure TrainLoopTrace where
  setEpochCalls : List Nat
  reports : List MetricsRecord
  printed : List MetricsRecord
deriving DecidableEq

/-- One iteration of the `for epoch in range(10)` body of `train_loop`
(source cell 4): call `train_loader.sampler.set_epoch(epoch)` when
`get_world_size() > 1`, train and evaluate (the accuracy for the epoch is
supplied by the externally-computed `accOf`), report
`{"acc": acc, "epoch": epoch}` with a checkpoint, and print the metrics
when `get_world_rank() == 0`. -/
def epochBody (world_size world_rank : Nat) (accOf : Nat → ℚ)
    (tr : TrainLoopTrace) (epoch : Nat) : TrainLoopTrace :=
  let tr := if world_size > 1 then
    { tr with setEpochCalls := tr.setEpochCalls ++ [epoch] } else tr
  let metrics : MetricsRecord := { acc := accOf epoch, epoch := epoch }
  let tr := { tr with reports := tr.reports ++ [metrics] }
  if world_rank = 0 then { tr with printed := tr.printed ++ [metrics] } else tr

/-- `train_loop` from source cell 4, restricted to its observable reporting
behaviour: ten epochs, `epoch` running over `range 10`. -/
def train_loop (world_size world_rank : Nat) (accOf : Nat → ℚ) : TrainLoopTrace :=
  (List.range 10).foldl (epochBody world_size world_rank accOf) ⟨[], [], []⟩

/-- The metrics record `train_loop` builds for a given epoch. -/
def metricsFor (accOf : Nat → ℚ) (epoch : Nat) : MetricsRecord :=
  { acc := accOf epoch, epoch := epoch }

theorem epochBody_setEpochCalls (ws wr : Nat) (accOf : Nat → ℚ)
    (tr : TrainLoopTrace) (e : Nat) :
    (epochBody ws wr accOf tr e).setEpochCalls =
      if ws > 1 then tr.setEpochCalls ++ [e] else tr.setEpochCalls := by
  unfold epochBody
  by_cases h1 : ws > 1 <;> by_cases h2 : wr = 0 <;> simp [h1, h2]

theorem epochBody_reports (ws wr : Nat) (accOf : Nat → ℚ)
    (tr : TrainLoopTrace) (e : Nat) :
    (epochBody ws wr accOf tr e).reports = tr.reports ++ [metricsFor accOf e] := by
  unfold epochBody metricsFor
  by_cases h1 : ws > 1 <;> by_cases h2 : wr = 0 <;> simp [h1, h2]

theorem epochBody_printed (ws wr : Nat) (accOf : Nat → ℚ)
    (tr : TrainLoopTrace) (e : Nat) :
    (epochBody ws wr accOf tr e).printed =
      if wr = 0 then tr.printed ++ [metricsFor accOf e] else tr.printed := by
  unfold epochBody metricsFor
  by_cases h1 : ws > 1 <;> by_cases h2 : wr = 0 <;> simp [h1, h2]

theorem train_loop_foldl_range (ws wr : Nat) (accOf : Nat → ℚ) (n : Nat)
    (tr : TrainLoopTrace) :
    (List.range n).foldl (epochBody ws wr accOf) tr =
      { setEpochCalls :=
          tr.setEpochCalls ++ (if ws > 1 then List.range n else [])
        reports := tr.reports ++ (List.range n).map (metricsFor accOf)
        printed := tr.printed ++
          (if wr = 0 then (List.range n).map (metricsFor accOf) else []) } := by
  induction n generalizing tr with
  | zero =>
    by_cases h2 : wr = 0 <;> by_cases h1 : ws > 1 <;> simp [h1, h2]
  | succ n ih =>
    rw [List.range_succ, List.foldl_append, ih]
    simp only [List.foldl_cons, List.foldl_nil]
    refine TrainLoopTrace.ext ?_ ?_ ?_
    · rw [epochBody_setEpochCalls]
      by_cases h1 : ws > 1 <;> simp [h1, List.range_succ]
    · rw [epochBody_reports]
      simp [List.range_succ]
    · rw [epochBody_printed]
      by_cases h2 : wr = 0 <;> simp [h2, List.range_succ]

theorem train_loop_eq (ws wr : Nat) (accOf : Nat → ℚ) :
    train_loop ws wr accOf =
      { setEpochCalls := if ws > 1 then List.range 10 else []
        reports := (List.range 10).map (metricsFor accOf)
        printed := if wr = 0 then (List.range 10).map (metricsFor accOf) else [] } := by
  unfold train_loop
  rw [train_loop_foldl_range]
  simp

/-- C2: running `train_loop` performs exactly 10 epochs and each epoch
produces exactly one reporting call whose `MetricsRecord` is
`{"acc": acc, "epoch": epoch}` with `epoch` equal to the loop index;
therefore 10 epochs reported on rank 0 yield 10 records. -/
theorem train_loop_ten_reports (ws wr : Nat) (accOf : Nat → ℚ) :
    (train_loop ws wr accOf).reports.length = 10 ∧
    (∀ i : Nat, ∀ hi : i < (train_loop ws wr accOf).reports.length,
      ((train_loop ws wr accOf).reports.get ⟨i, hi⟩).epoch = i ∧
      ((train_loop ws wr accOf).reports.get ⟨i, hi⟩).acc = accOf i) ∧
    (train_loop ws 0 accOf).reports.length = 10 := by
  rw [train_loop_eq, train_loop_eq]
  refine ⟨by simp, ?_, by simp⟩
  intro i hi
  simp only [List.length_map, List.length_range] at hi
  simp [metricsFor, List.get_eq_getElem, hi]

/-- C3: in `train_loop` the metrics are printed iff `get_world_rank() == 0`;
every rank still hands all ten records to the reporter (they are retained),
but only rank 0 surfaces them for display. -/
theorem rank_zero_only_prints (ws wr : Nat) (accOf : Nat → ℚ) (_hws : 1 ≤ ws) :
    ((train_loop ws wr accOf).printed ≠ [] ↔ wr = 0) ∧
    (wr = 0 → (train_loop ws wr accOf).printed = (train_loop ws wr accOf).reports) ∧
    (wr ≠ 0 → (train_loop ws wr accOf).printed = [] ∧
      (train_loop ws wr accOf).reports.length = 10) := by
  rw [train_loop_eq]
  refine ⟨?_, ?_, ?_⟩
  · by_cases h2 : wr = 0 <;> simp [h2, List.range_succ]
  · intro h2; simp [h2]
  · intro h2; simp [h2]

theorem rank_zero_only_prints_witness :
    (((train_loop 4 1 (fun _ => (1 : ℚ))).printed ≠ [] ↔ (1 : Nat) = 0) ∧
     ((1 : Nat) = 0 → (train_loop 4 1 (fun _ => (1 : ℚ))).printed =
        (train_loop 4 1 (fun _ => (1 : ℚ))).reports) ∧
     ((1 : Nat) ≠ 0 → (train_loop 4 1 (fun _ => (1 : ℚ))).printed = [] ∧
        (train_loop 4 1 (fun _ => (1 : ℚ))).reports.length = 10)) :=
  rank_zero_only_prints 4 1 (fun _ => (1 : ℚ)) (by decide)

/-- The running `(correct, total)` pair of `test_func` (source cell 3):
for each `(data, target)` batch, `total += target.size(0)` and
`correct += (predicted == target).sum().item()`.  A batch is embedded as the
list of its per-element pairs `(input, target)`, and `predict` is the
composite `argmax(model(data), 1)` computed by the external numeric library. -/
def testCounts {α : Type} (predict : α → Nat)
    (data_loader : List (List (α × Nat))) : Nat × Nat :=
  data_loader.foldl
    (fun ct batch =>
      (ct.1 + (batch.filter (fun p => predict p.1 = p.2)).length,
       ct.2 + batch.length))
    (0, 0)

/-- `test_func` from source cell 3.  The final statement is the unguarded
division `return correct / total`; `none` models the `ZeroDivisionError`
raised when `total` is still `0`. -/
def test_func {α : Type} (predict : α → Nat)
    (data_loader : List (List (α × Nat))) : Option ℚ :=
  let ct := testCounts predict data_loader
  if ct.2 = 0 then none
  else some ((ct.1 : ℚ) / (ct.2 : ℚ))

theorem testCounts_le {α : Type} (predict : α → Nat)
    (L : List (List (α × Nat))) :
    (testCounts predict L).1 ≤ (testCounts predict L).2 := by
  suffices h : ∀ c t : Nat, c ≤ t →
      (L.foldl (fun ct batch =>
        (ct.1 + (batch.filter (fun p => predict p.1 = p.2)).length,
         ct.2 + batch.length)) (c, t)).1 ≤
      (L.foldl (fun ct batch =>
        (ct.1 + (batch.filter (fun p => predict p.1 = p.2)).length,
         ct.2 + batch.length)) (c, t)).2 by
    exact h 0 0 (Nat.le_refl 0)
  induction L with
  | nil => intro c t h; exact h
  | cons b L ih =>
    intro c t h
    exact ih _ _ (Nat.add_le_add h (List.length_filter_le _ b))

theorem testCounts_snd {α : Type} (predict : α → Nat)
    (L : List (List (α × Nat))) :
    (testCounts predict L).2 = (L.map List.length).sum := by
  suffices h : ∀ c t : Nat,
      (L.foldl (fun ct batch =>
        (ct.1 + (batch.filter (fun p => predict p.1 = p.2)).length,
         ct.2 + batch.length)) (c, t)).2 = t + (L.map List.length).sum by
    have h0 := h 0 0
    rw [Nat.zero_add] at h0
    exact h0
  induction L with
  | nil => intro c t; simp
  | cons b L ih =>
    intro c t
    simp only [List.foldl_cons, List.map_cons, List.sum_cons]
    rw [ih]
    omega

theorem testCounts_total_pos {α : Type} (predict : α → Nat)
    (L : List (List (α × Nat))) (b : List (α × Nat))
    (hb : b ∈ L) (hne : b ≠ []) : 0 < (testCounts predict L).2 := by
  rw [testCounts_snd]
  have hlen : 0 < b.length := List.length_pos.mpr hne
  have hle : b.length ≤ (L.map List.length).sum :=
    List.single_le_sum (fun x _ => Nat.zero_le x) b.length
      (List.mem_map_of_mem List.length hb)
  omega

/-- C9: whenever the data loader yields at least one batch with at least one
element, `test_func` returns the accuracy `correct / total`, a value in
`[0, 1]`; when the loader yields no batches at all, `total` stays `0` and
the unguarded final division raises `ZeroDivisionError` (modelled by
`none`). -/
theorem test_func_range_and_empty {α : Type} (predict : α → Nat)
    (L : List (List (α × Nat))) :
    ((∃ b ∈ L, b ≠ []) →
      ∃ q : ℚ, test_func predict L = some q ∧ 0 ≤ q ∧ q ≤ 1) ∧
    (L = [] → (testCounts predict L).2 = 0 ∧ test_func predict L = none) := by
  constructor
  · rintro ⟨b, hb, hne⟩
    have hpos := testCounts_total_pos predict L b hb hne
    have hle := testCounts_le predict L
    refine ⟨((testCounts predict L).1 : ℚ) / ((testCounts predict L).2 : ℚ), ?_, ?_, ?_⟩
    · unfold test_func
      rw [if_neg (Nat.pos_iff_ne_zero.mp hpos)]
    · positivity
    · rw [div_le_one (by exact_mod_cast hpos)]
      exact_mod_cast hle
  · intro h
    subst h
    constructor
    · rfl
    · rfl

theorem test_func_range_and_empty_witness :
    (∃ q : ℚ, test_func (fun n : Nat => n) [[(0, 0)], [(1, 2), (3, 3)]] = some q ∧
      0 ≤ q ∧ q ≤ 1) ∧
    ((testCounts (fun n : Nat => n) ([] : List (List (Nat × Nat)))).2 = 0 ∧
      test_func (fun n : Nat => n) ([] : List (List (Nat × Nat))) = none) :=
  ⟨(test_func_range_and_empty (fun n : Nat => n) [[(0, 0)], [(1, 2), (3, 3)]]).1
      ⟨[(0, 0)], by decide, by decide⟩,
   (test_func_range_and_empty (fun n : Nat => n) ([] : List (List (Nat × Nat)))).2 rfl⟩

/-- A PyTorch state dict, embedded as an association list from parameter
names to parameter values (values abstracted as rationals). -/
abbrev StateDict : Type := List (String × ℚ)

/-- The state dict of a `DistributedDataParallel` wrapper: every key of the
wrapped module appears with the leading segment `module.` prepended. -/
def ddpStateDict (sd : StateDict) : StateDict :=
  sd.map (fun p => ("module." ++ p.1, p.2))

/-- Modelled from the spec: `ray.train.torch.prepare_model` wraps the user
model for the collective; as the run log in the source shows
(`Wrapping provided model in DistributedDataParallel.`), the returned model
is the DDP wrapper whenever more than one worker participates. -/
structure PreparedModel where
  moduleSd : StateDict
  wrapped : Bool

/-- Modelled from the spec: `prepare_model` for a run with `world_size`
workers (DDP wrapping occurs when the collective has more than one
member). -/
def prepare_model (sd : StateDict) (world_size : Nat) : PreparedModel :=
  { moduleSd := sd, wrapped := decide (1 < world_size) }

/-- `model.state_dict()` on the object returned by `prepare_model`. -/
def PreparedModel.stateDict (m : PreparedModel) : StateDict :=
  if m.wrapped then ddpStateDict m.moduleSd else m.moduleSd

/-- What source cell 4 saves in the checkpoint:
`torch.save(model.state_dict(), ...)` where `model` is the value returned
by `prepare_model`. -/
def trainLoopSavedSd (sd : StateDict) (world_size : Nat) : StateDict :=
  (prepare_model sd world_size).stateDict

/-- What the notebook's Checkpoint narrative (markdown cell 6) saves:
`torch.save(model.module.state_dict(), ...)`, i.e. the state dict of the
unwrapped inner module. -/
def narrativeSavedSd (sd : StateDict) (world_size : Nat) : StateDict :=
  (prepare_model sd world_size).moduleSd

/-- C10: with `world_size > 1` the model is wrapped in
`DistributedDataParallel`, so the checkpoint written by `train_loop`
(cell 4, `model.state_dict()`) differs from the save in the notebook's
Checkpoint narrative (cell 6, `model.module.state_dict()`): the former's
keys all carry a `module.` segment absent from the latter's keys. -/
theorem ddp_state_dict_mismatch (sd : StateDict) (world_size : Nat)
    (hws : 1 < world_size) (hne : sd ≠ []) :
    trainLoopSavedSd sd world_size ≠ narrativeSavedSd sd world_size ∧
    (trainLoopSavedSd sd world_size).map Prod.fst =
      ((narrativeSavedSd sd world_size).map Prod.fst).map
        (fun k => "module." ++ k) := by
  have hwrap : (prepare_model sd world_size).wrapped = true := by
    simp [prepare_model, hws]
  have htrain : trainLoopSavedSd sd world_size = ddpStateDict sd := by
    unfold trainLoopSavedSd PreparedModel.stateDict
    rw [hwrap]
    simp [prepare_model]
  have hnarr : narrativeSavedSd sd world_size = sd := rfl
  constructor
  · rw [htrain, hnarr]
    intro heq
    rcases List.exists_cons_of_ne_nil hne with ⟨p, tl, hsd⟩
    subst hsd
    have hhead : ("module." ++ p.1, p.2) = p := by
      have := congrArg List.head? heq
      simpa [ddpStateDict] using this
    have hkey : "module." ++ p.1 = p.1 := congrArg Prod.fst hhead
    have hlen := congrArg String.length hkey
    rw [String.length_append] at hlen
    have h7 : "module.".length = 7 := by decide
    omega
  · rw [htrain, hnarr]
    simp [ddpStateDict]

theorem ddp_state_dict_mismatch_witness :
    trainLoopSavedSd [("conv1.weight", 1)] 4 ≠
      narrativeSavedSd [("conv1.weight", 1)] 4 ∧
    (trainLoopSavedSd [("conv1.weight", 1)] 4).map Prod.fst =
      ((narrativeSavedSd [("conv1.weight", 1)] 4).map Prod.fst).map
        (fun k => "module." ++ k) :=
  ddp_state_dict_mismatch [("conv1.weight", 1)] 4 (by decide)
    (List.cons_ne_nil _ _)

/-- `RunConfig` as supplied to `TorchTrainer` in source cell 5
(`storage_path`, `name`), extended per the spec's data model with the
checkpoint retention bound `retention_count` (the notebook leaves it at the
framework default, i.e. unset). -/
structure RunConfig where
  storage_path : String
  name : String
  retention_count : Option Nat

/-- State of the Metrics and Checkpoint Reporter: the local staging
directories currently holding checkpoint copies, the checkpoints in durable
storage (oldest first), and the metrics record store keyed by rank. -/
structure ReporterState where
  localStaging : List (String × String)
  durable : List (String × String)
  records : List (Nat × MetricsRecord)

/-- Durable path of the checkpoint for a given epoch:
`storage_path/run_name/checkpoint_<epoch>`. -/
def checkpointPath (cfg : RunConfig) (epoch : Nat) : String :=
  cfg.storage_path ++ "/" ++ cfg.name ++ "/checkpoint_" ++ toString epoch

/-- Name of the unique local staging directory used for an epoch's
checkpoint (the `tempfile.TemporaryDirectory` of source cell 4). -/
def stagingName (epoch : Nat) : String :=
  "tmp_checkpoint_" ++ toString epoch

/-- Modelled from the spec: retention enforcement of the Metrics and
Checkpoint Reporter — after an upload, if the retained checkpoints exceed
`retention_count`, the oldest beyond that count are deleted (the durable
list is kept oldest-first, so pruning drops from the front). -/
def pruneOldest : Option Nat → List (String × String) → List (String × String)
  | none, l => l
  | some k, l => l.drop (l.length - k)

/-- Modelled from the spec: `ray.train.report(metrics, checkpoint=...)` —
records the metrics under the calling rank; when a checkpoint is supplied,
stages it to a uniquely named local directory, uploads it to
`storage_path/run_name/checkpoint_<epoch>`, enforces retention, and then
deletes the local staging directory. -/
def report (cfg : RunConfig) (rank : Nat) (metrics : MetricsRecord)
    (checkpoint : Option String) (st : ReporterState) : ReporterState :=
  let st1 : ReporterState := { st with records := st.records ++ [(rank, metrics)] }
  match checkpoint with
  | none => st1
  | some content =>
    let sname := stagingName metrics.epoch
    let staged : ReporterState :=
      { st1 with localStaging := st1.localStaging ++ [(sname, content)] }
    let newDurable := pruneOldest cfg.retention_count
      (staged.durable ++ [(checkpointPath cfg metrics.epoch, content)])
    let uploaded : ReporterState := { staged with durable := newDurable }
    { uploaded with
      localStaging := uploaded.localStaging.filter (fun p => p.1 ≠ sname) }

/-- The reporter state at the start of a run: nothing staged, nothing
durable, no records. -/
def emptyReporter : ReporterState := ⟨[], [], []⟩

theorem pruneOldest_mem_last (k : Option Nat) (hk : k = none ∨ ∃ n, k = some n ∧ 1 ≤ n)
    (l : List (String × String)) (x : String × String) :
    x ∈ pruneOldest k (l ++ [x]) := by
  rcases hk with hk | ⟨n, hk, hn⟩
  · subst hk; simp [pruneOldest]
  · subst hk
    show x ∈ (l ++ [x]).drop ((l ++ [x]).length - n)
    have hlen : (l ++ [x]).length = l.length + 1 := by simp
    have hle : (l ++ [x]).length - n ≤ l.length := by omega
    have hdrop : (l ++ [x]).drop ((l ++ [x]).length - n) =
        l.drop ((l ++ [x]).length - n) ++ [x] :=
      List.drop_append_of_le_length hle
    rw [hdrop]
    simp

/-- C1: a successful `report` call with a checkpoint uploads the checkpoint
content to the durable storage path configured in `RunConfig`
(`storage_path/run_name/checkpoint_<epoch>`), and afterwards no local
staging copy for it exists (the staging directory is deleted once the
upload is confirmed).  The retention bound must admit at least one
checkpoint. -/
theorem report_uploads_and_cleans (cfg : RunConfig) (rank : Nat)
    (metrics : MetricsRecord) (content : String) (st : ReporterState)
    (hk : cfg.retention_count = none ∨
      ∃ n, cfg.retention_count = some n ∧ 1 ≤ n) :
    (checkpointPath cfg metrics.epoch, content) ∈
      (report cfg rank metrics (some content) st).durable ∧
    (∀ p ∈ (report cfg rank metrics (some content) st).localStaging,
      p.1 ≠ stagingName metrics.epoch) := by
  have hdur : (report cfg rank metrics (some content) st).durable =
      pruneOldest cfg.retention_count
        (st.durable ++ [(checkpointPath cfg metrics.epoch, content)]) := rfl
  have hstag : (report cfg rank metrics (some content) st).localStaging =
      (st.localStaging ++ [(stagingName metrics.epoch, content)]).filter
        (fun p => p.1 ≠ stagingName metrics.epoch) := rfl
  constructor
  · rw [hdur]
    exact pruneOldest_mem_last cfg.retention_count hk
      (st.durable) (checkpointPath cfg metrics.epoch, content)
  · intro p hp
    rw [hstag] at hp
    simp only [List.mem_filter] at hp
    exact of_decide_eq_true hp.2

theorem report_uploads_and_cleans_witness :
    (checkpointPath ⟨"s3://bucket", "exp", none⟩ 0, "weights") ∈
      (report ⟨"s3://bucket", "exp", none⟩ 0 ⟨1, 0⟩ (some "weights")
        emptyReporter).durable ∧
    (∀ p ∈ (report ⟨"s3://bucket", "exp", none⟩ 0 ⟨1, 0⟩ (some "weights")
        emptyReporter).localStaging, p.1 ≠ stagingName 0) :=
  report_uploads_and_cleans ⟨"s3://bucket", "exp", none⟩ 0 ⟨1, 0⟩ "weights"
    emptyReporter (Or.inl rfl)

/-- The durable-storage entries that a sequence of checkpointed reports
produces, oldest first. -/
def uploadEntries (cfg : RunConfig) (ckpts : List (MetricsRecord × String)) :
    List (String × String) :=
  ckpts.map (fun mc => (checkpointPath cfg mc.1.epoch, mc.2))

/-- Perform one checkpointed `report` call per element of `ckpts`, in
order. -/
def runUploads (cfg : RunConfig) (rank : Nat)
    (ckpts : List (MetricsRecord × String)) (st : ReporterState) : ReporterState :=
  ckpts.foldl (fun s mc => report cfg rank mc.1 (some mc.2) s) st

theorem keepLast_append_keepLast (K : Nat) (A B : List (String × String)) :
    (A.drop (A.length - K) ++ B).drop
        ((A.drop (A.length - K) ++ B).length - K) =
      (A ++ B).drop ((A ++ B).length - K) := by
  rcases Nat.le_total A.length K with h | h
  · rw [Nat.sub_eq_zero_of_le h, List.drop_zero]
  · have hlenA : (A.drop (A.length - K)).length = K := by
      rw [List.length_drop]; omega
    rw [List.drop_append_eq_append_drop, List.drop_append_eq_append_drop,
        List.drop_drop]
    congr 1
    · congr 1
      simp only [List.length_append, List.length_drop]
      omega
    · congr 1
      simp only [List.length_append, List.length_drop]
      omega

theorem runUploads_durable (cfg : RunConfig) (K rank : Nat)
    (hK : cfg.retention_count = some K) :
    ∀ (ckpts : List (MetricsRecord × String)) (st : ReporterState),
      st.durable.drop (st.durable.length - K) = st.durable →
      (runUploads cfg rank ckpts st).durable =
        (st.durable ++ uploadEntries cfg ckpts).drop
          ((st.durable ++ uploadEntries cfg ckpts).length - K) := by
  intro ckpts
  induction ckpts with
  | nil =>
    intro st hst
    have h1 : runUploads cfg rank [] st = st := rfl
    have h2 : uploadEntries cfg [] = [] := rfl
    rw [h1, h2, List.append_nil]
    exact hst.symm
  | cons c cs ih =>
    intro st hst
    have hstep : (runUploads cfg rank (c :: cs) st) =
        runUploads cfg rank cs (report cfg rank c.1 (some c.2) st) := rfl
    have hdur : (report cfg rank c.1 (some c.2) st).durable =
        pruneOldest cfg.retention_count
          (st.durable ++ [(checkpointPath cfg c.1.epoch, c.2)]) := rfl
    rw [hK] at hdur
    have hdur' : (report cfg rank c.1 (some c.2) st).durable =
        (st.durable ++ [(checkpointPath cfg c.1.epoch, c.2)]).drop
          ((st.durable ++ [(checkpointPath cfg c.1.epoch, c.2)]).length - K) :=
      hdur
    have hpruned : (report cfg rank c.1 (some c.2) st).durable.drop
        ((report cfg rank c.1 (some c.2) st).durable.length - K) =
        (report cfg rank c.1 (some c.2) st).durable := by
      rw [hdur']
      have := keepLast_append_keepLast K
        (st.durable ++ [(checkpointPath cfg c.1.epoch, c.2)]) []
      rw [List.append_nil, List.append_nil] at this
      exact this
    rw [hstep, ih _ hpruned, hdur']
    have hassoc : uploadEntries cfg (c :: cs) =
        [(checkpointPath cfg c.1.epoch, c.2)] ++ uploadEntries cfg cs := rfl
    rw [hassoc, ← List.append_assoc]
    exact keepLast_append_keepLast K
      (st.durable ++ [(checkpointPath cfg c.1.epoch, c.2)]) (uploadEntries cfg cs)

/-- C4: with `retention_count = K`, after `N` successful checkpoint uploads
exactly `min N K` checkpoints remain in durable storage, and they are the
most recent ones (the retained list is a suffix of the full upload
sequence). -/
theorem checkpoint_retention (cfg : RunConfig) (K rank : Nat)
    (ckpts : List (MetricsRecord × String))
    (hK : cfg.retention_count = some K) :
    (runUploads cfg rank ckpts emptyReporter).durable.length =
      min ckpts.length K ∧
    (runUploads cfg rank ckpts emptyReporter).durable <:+
      uploadEntries cfg ckpts := by
  have h := runUploads_durable cfg K rank hK ckpts emptyReporter
    (by simp [emptyReporter])
  have hempty : emptyReporter.durable = [] := rfl
  rw [hempty, List.nil_append] at h
  have hlen : (uploadEntries cfg ckpts).length = ckpts.length := by
    unfold uploadEntries
    rw [List.length_map]
  constructor
  · rw [h, List.length_drop]
    omega
  · rw [h]
    exact List.drop_suffix _ _

theorem checkpoint_retention_witness :
    (runUploads ⟨"s3://bucket", "exp", some 2⟩ 0
      [(⟨1, 0⟩, "w0"), (⟨1, 1⟩, "w1"), (⟨1, 2⟩, "w2")] emptyReporter).durable.length =
      min 3 2 ∧
    (runUploads ⟨"s3://bucket", "exp", some 2⟩ 0
      [(⟨1, 0⟩, "w0"), (⟨1, 1⟩, "w1"), (⟨1, 2⟩, "w2")] emptyReporter).durable <:+
      uploadEntries ⟨"s3://bucket", "exp", some 2⟩
        [(⟨1, 0⟩, "w0"), (⟨1, 1⟩, "w1"), (⟨1, 2⟩, "w2")] := by
  have h := checkpoint_retention ⟨"s3://bucket", "exp", some 2⟩ 2 0
    [(⟨1, 0⟩, "w0"), (⟨1, 1⟩, "w1"), (⟨1, 2⟩, "w2")] rfl
  simpa using h

/-- Modelled from the spec: the pseudo-random generator used to reseed the
shuffle per epoch (a standard linear congruential step; the framework's
exact generator is a default not exposed in the source). -/
def lcg (seed : Nat) : Nat := (seed * 1103515245 + 12345) % 2147483648

/-- Pseudo-random sort key of index `i` for a given seed. -/
def shuffleKey (seed i : Nat) : Nat := lcg (lcg seed + i)

/-- Modelled from the spec: the deterministic seeded shuffle — indices are
ordered by their pseudo-random key for the seed. -/
def seededShuffle (seed : Nat) (l : List Nat) : List Nat :=
  l.mergeSort (fun a b => decide (shuffleKey seed a ≤ shuffleKey seed b))

/-- Modelled from the spec: the Data Shard Coordinator's shard assignment —
rank `r` of `W` receives the dataset indices congruent to `r` modulo `W`,
a deterministic function of (dataset size, world_size, rank). -/
def shardIndices (D W r : Nat) : List Nat :=
  (List.range (D / W)).map (fun k => k * W + r)

/-- Modelled from the spec: the distributed sampler attached by
`prepare_data_loader`; `set_epoch` stores the epoch used to reseed the
shuffle of the rank's shard. -/
structure DistributedSampler where
  datasetSize : Nat
  num_replicas : Nat
  rank : Nat
  epoch : Nat

/-- `sampler.set_epoch(e)` as called in `train_loop`: records the epoch to
seed the next iteration's shuffle. -/
def DistributedSampler.set_epoch (s : DistributedSampler) (e : Nat) :
    DistributedSampler :=
  { s with epoch := e }

/-- The order in which the sampler yields its shard's indices for the
current epoch. -/
def DistributedSampler.iterOrder (s : DistributedSampler) : List Nat :=
  seededShuffle s.epoch (shardIndices s.datasetSize s.num_replicas s.rank)

theorem mem_shardIndices (D W r x : Nat) :
    x ∈ shardIndices D W r ↔ ∃ k, k < D / W ∧ k * W + r = x := by
  unfold shardIndices
  simp [List.mem_map, List.mem_range]

theorem shardIndices_nodup (D W r : Nat) (hW : 0 < W) :
    (shardIndices D W r).Nodup := by
  unfold shardIndices
  refine List.Nodup.map ?_ (List.nodup_range (D / W))
  intro k1 k2 h
  have h1 : k1 * W = k2 * W := Nat.add_right_cancel h
  exact Nat.eq_of_mul_eq_mul_right hW h1

theorem shardIndices_disjoint (D W r s : Nat) (hr : r < W) (hs : s < W)
    (hne : r ≠ s) : ∀ x, x ∈ shardIndices D W r → x ∉ shardIndices D W s := by
  intro x hx1 hx2
  rcases (mem_shardIndices D W r x).mp hx1 with ⟨k1, _, h1⟩
  rcases (mem_shardIndices D W s x).mp hx2 with ⟨k2, _, h2⟩
  apply hne
  have hmod1 : x % W = r := by
    rw [← h1, Nat.add_comm, Nat.add_mul_mod_self_right, Nat.mod_eq_of_lt hr]
  have hmod2 : x % W = s := by
    rw [← h2, Nat.add_comm, Nat.add_mul_mod_self_right, Nat.mod_eq_of_lt hs]
  rw [← hmod1, ← hmod2]

theorem shardIndices_lt (D W r x : Nat) (_hW : 0 < W) (hdvd : W ∣ D)
    (hr : r < W) (hx : x ∈ shardIndices D W r) : x < D := by
  rcases (mem_shardIndices D W r x).mp hx with ⟨k, hk, hkx⟩
  have h1 : k + 1 ≤ D / W := hk
  have h2 : (k + 1) * W ≤ (D / W) * W := Nat.mul_le_mul_right W h1
  rw [Nat.div_mul_cancel hdvd] at h2
  have h3 : k * W + r < (k + 1) * W := by
    rw [Nat.succ_mul]
    omega
  omega

theorem shardIndices_length (D W r : Nat) :
    (shardIndices D W r).length = D / W := by
  unfold shardIndices
  rw [List.length_map, List.length_range]

theorem flatten_shards_perm (D W : Nat) (hW : 0 < W) (hdvd : W ∣ D) :
    List.Perm ((List.range W).map (shardIndices D W)).flatten (List.range D) := by
  have hnodupShard : ∀ l ∈ (List.range W).map (shardIndices D W), l.Nodup := by
    intro l hl
    rcases List.mem_map.mp hl with ⟨r, _, hrl⟩
    rw [← hrl]
    exact shardIndices_nodup D W r hW
  have hpairwise : ((List.range W).map (shardIndices D W)).Pairwise List.Disjoint := by
    rw [List.pairwise_map]
    refine List.Pairwise.imp_of_mem ?_ (List.pairwise_lt_range W)
    intro r s hrm hsm hlt
    exact shardIndices_disjoint D W r s (List.mem_range.mp hrm)
      (List.mem_range.mp hsm) (Nat.ne_of_lt hlt)
  have hnodup : ((List.range W).map (shardIndices D W)).flatten.Nodup :=
    List.nodup_flatten.mpr ⟨hnodupShard, hpairwise⟩
  rw [List.perm_ext_iff_of_nodup hnodup (List.nodup_range D)]
  intro x
  rw [List.mem_flatten, List.mem_range]
  constructor
  · rintro ⟨l, hl, hxl⟩
    rcases List.mem_map.mp hl with ⟨r, hrm, hrl⟩
    rw [← hrl] at hxl
    exact shardIndices_lt D W r x hW hdvd (List.mem_range.mp hrm) hxl
  · intro hx
    refine ⟨shardIndices D W (x % W), ?_, ?_⟩
    · exact List.mem_map_of_mem _ (List.mem_range.mpr (Nat.mod_lt x hW))
    · rw [mem_shardIndices]
      refine ⟨x / W, Nat.div_lt_div_of_lt_of_dvd hdvd hx, ?_⟩
      have := Nat.div_add_mod x W
      rw [Nat.mul_comm] at this
      omega

/-- C6: for a dataset of `D` indices and `W` ranks with `W ∣ D`, the shards
produced by the data shard coordinator for ranks `0..W-1` are pairwise
disjoint and, flattened together, form a permutation of the full index set
`range D` — no overlap and no omission. -/
theorem shard_partition (D W : Nat) (hW : 1 ≤ W) (hdvd : W ∣ D) :
    (∀ r s, r < W → s < W → r ≠ s →
      ∀ x, x ∈ shardIndices D W r → x ∉ shardIndices D W s) ∧
    List.Perm ((List.range W).map (shardIndices D W)).flatten (List.range D) :=
  ⟨fun r s hr hs hne => shardIndices_disjoint D W r s hr hs hne,
   flatten_shards_perm D W hW hdvd⟩

theorem shard_partition_witness :
    (∀ r s, r < 2 → s < 2 → r ≠ s →
      ∀ x, x ∈ shardIndices 6 2 r → x ∉ shardIndices 6 2 s) ∧
    List.Perm ((List.range 2).map (shardIndices 6 2)).flatten (List.range 6) :=
  shard_partition 6 2 (by decide) (by decide)

/-- C5: `set_epoch(e)` is deterministic — two samplers over the same shard
(same dataset size, world size, rank), whatever their prior epoch state,
yield the same shuffle order after `set_epoch(e)`; in `train_loop` the
reseeding call is made exactly when `world_size > 1` (once per epoch); and
distinct ranks, holding disjoint shards, see different orders. -/
theorem set_epoch_reproducible (s1 s2 : DistributedSampler) (e : Nat)
    (hD : s1.datasetSize = s2.datasetSize)
    (hW : s1.num_replicas = s2.num_replicas)
    (hr : s1.rank = s2.rank) :
    (s1.set_epoch e).iterOrder = (s2.set_epoch e).iterOrder ∧
    (∀ ws wr accOf, (train_loop ws wr accOf).setEpochCalls =
      if ws > 1 then List.range 10 else []) ∧
    (∀ t1 t2 : DistributedSampler,
      t1.datasetSize = t2.datasetSize → t1.num_replicas = t2.num_replicas →
      1 < t1.num_replicas → 0 < t1.datasetSize →
      t1.num_replicas ∣ t1.datasetSize →
      t1.rank < t1.num_replicas → t2.rank < t2.num_replicas →
      t1.rank ≠ t2.rank →
      (t1.set_epoch e).iterOrder ≠ (t2.set_epoch e).iterOrder) := by
  refine ⟨?_, ?_, ?_⟩
  · unfold DistributedSampler.iterOrder DistributedSampler.set_epoch
    rw [hD, hW, hr]
  · intro ws wr accOf
    rw [train_loop_eq]
  · intro t1 t2 hD2 hW2 hgt hpos hdvd hr1 hr2 hrne heq
    have hWpos : 0 < t1.num_replicas := Nat.lt_of_lt_of_le Nat.zero_lt_one
      (Nat.le_of_lt hgt)
    have hperm1 : List.Perm (t1.set_epoch e).iterOrder
        (shardIndices t1.datasetSize t1.num_replicas t1.rank) :=
      List.mergeSort_perm _ _
    have hperm2 : List.Perm (t2.set_epoch e).iterOrder
        (shardIndices t2.datasetSize t2.num_replicas t2.rank) :=
      List.mergeSort_perm _ _
    have hlen : (t1.set_epoch e).iterOrder.length =
        t1.datasetSize / t1.num_replicas := by
      rw [hperm1.length_eq, shardIndices_length]
    have hquot : 0 < t1.datasetSize / t1.num_replicas :=
      Nat.div_pos (Nat.le_of_dvd hpos hdvd) hWpos
    have hne : (t1.set_epoch e).iterOrder ≠ [] := by
      intro hnil
      rw [hnil] at hlen
      simp at hlen
      omega
    rcases List.exists_mem_of_ne_nil _ hne with ⟨x, hx⟩
    have hx1 : x ∈ shardIndices t1.datasetSize t1.num_replicas t1.rank :=
      hperm1.mem_iff.mp hx
    have hx2 : x ∈ shardIndices t2.datasetSize t2.num_replicas t2.rank := by
      apply hperm2.mem_iff.mp
      rw [← heq]
      exact hx
    rw [← hD2, ← hW2] at hx2
    exact shardIndices_disjoint t1.datasetSize t1.num_replicas t1.rank t2.rank
      hr1 (hW2 ▸ hr2) hrne x hx1 hx2

theorem set_epoch_reproducible_witness :
    ((DistributedSampler.mk 8 2 0 5).set_epoch 3).iterOrder =
      ((DistributedSampler.mk 8 2 0 7).set_epoch 3).iterOrder ∧
    (∀ ws wr accOf, (train_loop ws wr accOf).setEpochCalls =
      if ws > 1 then List.range 10 else []) ∧
    (∀ t1 t2 : DistributedSampler,
      t1.datasetSize = t2.datasetSize → t1.num_replicas = t2.num_replicas →
      1 < t1.num_replicas → 0 < t1.datasetSize →
      t1.num_replicas ∣ t1.datasetSize →
      t1.rank < t1.num_replicas → t2.rank < t2.num_replicas →
      t1.rank ≠ t2.rank →
      (t1.set_epoch 3).iterOrder ≠ (t2.set_epoch 3).iterOrder) :=
  set_epoch_reproducible (DistributedSampler.mk 8 2 0 5)
    (DistributedSampler.mk 8 2 0 7) 3 rfl rfl rfl

/-- Per-worker identity exposed by the collective context, as printed in the
source's worker-launch output (`world_rank=i, local_rank=i, node_rank=0`
for the single-node, four-worker run). -/
structure WorkerContext where
  world_rank : Nat
  local_rank : Nat
  node_rank : Nat
  world_size : Nat
deriving DecidableEq

/-- Modelled from the spec: the Collective Context assigns each of the `W`
launched workers exactly one context, giving worker `i` world rank `i`
(single-node run, so local rank equals world rank and node rank is 0, as in
the source's launch log). -/
def launchWorkerGroup (W : Nat) : List WorkerContext :=
  (List.range W).map (fun i =>
    { world_rank := i, local_rank := i, node_rank := 0, world_size := W })

/-- C7: for every `world_size ≥ 1` the collective context creates exactly
one `WorkerContext` per worker, and the assigned world ranks are exactly
`0, …, world_size − 1` with no duplicates. -/
theorem collective_ranks_exact (W : Nat) (_hW : 1 ≤ W) :
    (launchWorkerGroup W).length = W ∧
    (launchWorkerGroup W).map WorkerContext.world_rank = List.range W ∧
    ((launchWorkerGroup W).map WorkerContext.world_rank).Nodup := by
  have hmap : (launchWorkerGroup W).map WorkerContext.world_rank = List.range W := by
    unfold launchWorkerGroup
    rw [List.map_map]
    exact List.map_id (List.range W)
  refine ⟨?_, hmap, ?_⟩
  · unfold launchWorkerGroup
    rw [List.length_map, List.length_range]
  · rw [hmap]
    exact List.nodup_range W

theorem collective_ranks_exact_witness :
    (launchWorkerGroup 4).length = 4 ∧
    (launchWorkerGroup 4).map WorkerContext.world_rank = List.range 4 ∧
    ((launchWorkerGroup 4).map WorkerContext.world_rank).Nodup :=
  collective_ranks_exact 4 (by decide)

/-- Modelled from the spec: the observable state of one training step under
the Model Synchronization Wrapper — each worker's submitted local gradient
(`none` until computed), the all-reduced average once available, each
worker's parameter value, and whether its `optimizer.step()` has been
applied.  Gradients and parameters are abstracted to one rational per
worker. -/
structure SyncState where
  grads : Nat → Option ℚ
  avg : Option ℚ
  params : Nat → ℚ
  stepped : Nat → Bool

/-- Sum of the gradients submitted so far by workers `0..W-1` (a missing
gradient counts as 0; the all-reduce only fires when none is missing). -/
def gradSum (W : Nat) (grads : Nat → Option ℚ) : ℚ :=
  ∑ j ∈ Finset.range W, (grads j).getD 0

/-- Modelled from the spec: the transitions of one synchronous training
step.  A worker submits its locally computed gradient once; the all-reduce
fires only after all `W` gradients have arrived and publishes their average
(sum divided by `world_size`); a worker's `optimizer.step()` may proceed
only once the average is available, and applies it to that worker's
parameters. -/
inductive SyncStep (W : Nat) (lr : ℚ) : SyncState → SyncState → Prop
  | submit (s : SyncState) (i : Nat) (g : ℚ) (hi : i < W)
      (hnone : s.grads i = none) :
      SyncStep W lr s { s with grads := Function.update s.grads i (some g) }
  | allreduce (s : SyncState) (hall : ∀ j, j < W → (s.grads j).isSome)
      (hnone : s.avg = none) :
      SyncStep W lr s { s with avg := some (gradSum W s.grads / (W : ℚ)) }
  | optStep (s : SyncState) (i : Nat) (a : ℚ) (hi : i < W)
      (havg : s.avg = some a) (hns : s.stepped i = false) :
      SyncStep W lr s { s with
        params := Function.update s.params i (s.params i - lr * a),
        stepped := Function.update s.stepped i true }

/-- Initial state of a training step: no gradients submitted, no average,
parameters `p0`, no optimizer step applied. -/
def initSync (p0 : Nat → ℚ) : SyncState :=
  { grads := fun _ => none, avg := none, params := p0, stepped := fun _ => false }

/-- States reachable within one training step. -/
abbrev SyncReach (W : Nat) (lr : ℚ) : SyncState → SyncState → Prop :=
  Relation.ReflTransGen (SyncStep W lr)

/-- Step invariant: a published average implies every gradient has arrived
and equals their mean; a stepped worker's parameters carry exactly one
update by the published average; an unstepped worker's parameters are
untouched. -/
def SyncInv (W : Nat) (lr : ℚ) (p0 : Nat → ℚ) (s : SyncState) : Prop :=
  (∀ a, s.avg = some a →
    (∀ j, j < W → (s.grads j).isSome) ∧ a = gradSum W s.grads / (W : ℚ)) ∧
  (∀ i, s.stepped i = true →
    i < W ∧ ∃ a, s.avg = some a ∧ s.params i = p0 i - lr * a) ∧
  (∀ i, s.stepped i = false → s.params i = p0 i)

theorem syncInv_init (W : Nat) (lr : ℚ) (p0 : Nat → ℚ) :
    SyncInv W lr p0 (initSync p0) := by
  refine ⟨?_, ?_, ?_⟩
  · intro a ha
    cases ha
  · intro i h
    cases h
  · intro i _
    rfl

theorem syncInv_step (W : Nat) (lr : ℚ) (p0 : Nat → ℚ) {s s' : SyncState}
    (hinv : SyncInv W lr p0 s) (hst : SyncStep W lr s s') :
    SyncInv W lr p0 s' := by
  obtain ⟨hAvg, hTrue, hFalse⟩ := hinv
  cases hst with
  | submit i g hi hnone =>
    refine ⟨?_, ?_, ?_⟩
    · intro a ha
      exfalso
      obtain ⟨hall, -⟩ := hAvg a ha
      have h1 := hall i hi
      rw [hnone] at h1
      cases h1
    · intro i' h
      exact hTrue i' h
    · intro i' h
      exact hFalse i' h
  | allreduce hall hnone =>
    refine ⟨?_, ?_, ?_⟩
    · intro a ha
      have ha' : some (gradSum W s.grads / (W : ℚ)) = some a := ha
      exact ⟨fun j hj => hall j hj, (Option.some.inj ha').symm⟩
    · intro i h
      obtain ⟨_, a, ha, _⟩ := hTrue i h
      rw [hnone] at ha
      cases ha
    · intro i h
      exact hFalse i h
  | optStep i a hi havg hns =>
    refine ⟨?_, ?_, ?_⟩
    · intro a' ha'
      exact hAvg a' ha'
    · intro i' h
      by_cases hii : i' = i
      · subst hii
        refine ⟨hi, a, havg, ?_⟩
        show Function.update s.params i' (s.params i' - lr * a) i' = p0 i' - lr * a
        rw [Function.update_same, hFalse i' hns]
      · have h' : s.stepped i' = true := by
          have hup : Function.update s.stepped i true i' = s.stepped i' :=
            Function.update_noteq hii true s.stepped
          rw [← hup]
          exact h
        obtain ⟨hiW, a', ha', hp⟩ := hTrue i' h'
        refine ⟨hiW, a', ha', ?_⟩
        show Function.update s.params i (s.params i - lr * a) i' = p0 i' - lr * a'
        rw [Function.update_noteq hii]
        exact hp
    · intro i' h
      have hii : i' ≠ i := by
        intro he
        subst he
        have hup : Function.update s.stepped i' true i' = true :=
          Function.update_same i' true s.stepped
        have : (true : Bool) = false := by
          rw [← hup]
          exact h
        cases this
      have h' : s.stepped i' = false := by
        have hup : Function.update s.stepped i true i' = s.stepped i' :=
          Function.update_noteq hii true s.stepped
        rw [← hup]
        exact h
      show Function.update s.params i (s.params i - lr * a) i' = p0 i'
      rw [Function.update_noteq hii]
      exact hFalse i' h'

theorem syncInv_reach (W : Nat) (lr : ℚ) (p0 : Nat → ℚ) {s : SyncState}
    (h : SyncReach W lr (initSync p0) s) : SyncInv W lr p0 s := by
  induction h with
  | refl => exact syncInv_init W lr p0
  | tail _ hbc ih => exact syncInv_step W lr p0 ih hbc

/-- C8: in any execution of one training step of a `prepare_model`-wrapped
model, whenever some worker's `optimizer.step()` has completed, every
worker's gradient for that step has already been exchanged, the published
value is their all-reduced average (sum divided by `world_size`), and the
stepped worker's parameter update used exactly that average — so the
average is totally ordered before any optimizer step. -/
theorem gradient_sync_barrier (W : Nat) (lr : ℚ) (p0 : Nat → ℚ)
    (s : SyncState) (_hW : 1 ≤ W)
    (hreach : SyncReach W lr (initSync p0) s)
    (i : Nat) (hstep : s.stepped i = true) :
    (∀ j, j < W → ∃ g, s.grads j = some g) ∧
    (∃ a, s.avg = some a ∧ a = gradSum W s.grads / (W : ℚ) ∧
      s.params i = p0 i - lr * a) := by
  obtain ⟨hAvg, hTrue, _⟩ := syncInv_reach W lr p0 hreach
  obtain ⟨_, a, ha, hp⟩ := hTrue i hstep
  obtain ⟨hall, haeq⟩ := hAvg a ha
  constructor
  · intro j hj
    exact Option.isSome_iff_exists.mp (hall j hj)
  · exact ⟨a, ha, haeq, hp⟩

/-- Concrete two-worker run used to exercise `gradient_sync_barrier`. -/
def syncP0 : Nat → ℚ := fun _ => 0

def syncS0 : SyncState := initSync syncP0

def syncS1 : SyncState :=
  { syncS0 with grads := Function.update syncS0.grads 0 (some 4) }

def syncS2 : SyncState :=
  { syncS1 with grads := Function.update syncS1.grads 1 (some 2) }

def syncS3 : SyncState :=
  { syncS2 with avg := some (gradSum 2 syncS2.grads / (2 : ℚ)) }

def syncS4 : SyncState :=
  { syncS3 with
    params := Function.update syncS3.params 0
      (syncS3.params 0 - 1 * (gradSum 2 syncS2.grads / (2 : ℚ))),
    stepped := Function.update syncS3.stepped 0 true }

theorem syncReach_final : SyncReach 2 1 (initSync syncP0) syncS4 := by
  have h1 : SyncStep 2 1 syncS0 syncS1 :=
    SyncStep.submit syncS0 0 4 (by decide) rfl
  have h2 : SyncStep 2 1 syncS1 syncS2 :=
    SyncStep.submit syncS1 1 2 (by decide)
      (by simp [syncS1, syncS0, initSync, syncP0, Function.update])
  have h3 : SyncStep 2 1 syncS2 syncS3 :=
    SyncStep.allreduce syncS2
      (by
        intro j hj
        interval_cases j <;>
          simp [syncS2, syncS1, syncS0, initSync, syncP0, Function.update])
      (by simp [syncS2, syncS1, syncS0, initSync, syncP0])
  have h4 : SyncStep 2 1 syncS3 syncS4 :=
    SyncStep.optStep syncS3 0 (gradSum 2 syncS2.grads / (2 : ℚ)) (by decide)
      rfl (by simp [syncS3, syncS2, syncS1, syncS0, initSync, syncP0])
  exact Relation.ReflTransGen.tail
    (Relation.ReflTransGen.tail
      (Relation.ReflTransGen.tail (Relation.ReflTransGen.single h1) h2) h3) h4

theorem gradient_sync_barrier_witness :
    (∀ j, j < 2 → ∃ g, syncS4.grads j = some g) ∧
    (∃ a, syncS4.avg = some a ∧ a = gradSum 2 syncS4.grads / (2 : ℚ) ∧
      syncS4.params 0 = syncP0 0 - 1 * a) :=
  gradient_sync_barrier 2 1 syncP0 syncS4 (by decide) syncReach_final 0
    (by simp [syncS4, syncS3, syncS2, syncS1, syncS0, initSync, Function.update])
